import Mathlib

/-!
# EmcEspNow — shallow embedding and verification

A shallow embedding of the peer-discovery / state-synchronization core of the
EmcEspNow library (`EmcEspNow.cpp` / `EmcEspNow.h`), together with proofs of
the specified properties.

Modelling conventions:
* Byte buffers (`uint8_t` arrays, packed structs as seen by `memcmp`/`memcpy`)
  are `List Nat`, each element a byte value.
* The ESP-NOW lower-layer peer registry (`esp_now_is_peer_exist`,
  `esp_now_add_peer`, `esp_now_del_peer`) is kept in lock-step with the
  `peers` vector by the source code, so it is modelled by membership in the
  `peers` list; `esp_now_add_peer` is modelled as succeeding.
* Network output is modelled as a list of emitted messages.
* `millis()` is an explicit `now : Nat` parameter; the unsigned subtraction
  `millis() - broadcastMillis` agrees with `Nat` subtraction whenever
  `broadcastMillis ≤ now`, which holds in every run because `broadcastMillis`
  is always a past value of the monotone clock.
* The out-of-bounds vector access `peers[1]` that the slave send path can
  perform is undefined behaviour in C++; `update` therefore returns an
  `Option`, with `none` marking exactly that access.
-/

abbrev Bytes := List Nat

abbrev Mac := List Nat

def zeros (n : Nat) : Bytes := List.replicate n 0

/-- `sizeof(slave_data_t)`: 16-byte `button_data` block + 64-byte `data` block. -/
def slaveDataSize : Nat := 16 + 64

/-- `sizeof(master_cmd_t)`: four `uint8_t` fields, one `float`, one `int32_t`, packed. -/
def masterCmdSize : Nat := 1 + 1 + 1 + 1 + 4 + 4

/-- The packed `slave_data_t` wire record: `uint8_t button_data[16]; uint8_t data[64];`. -/
structure slave_data_t where
  button_data : Bytes
  data : Bytes
  deriving DecidableEq, Repr

/-- Well-formedness of a `slave_data_t` value: field widths and byte ranges. -/
def slave_data_t.WF (r : slave_data_t) : Prop :=
  r.button_data.length = 16 ∧ r.data.length = 64 ∧
  (∀ b ∈ r.button_data, b < 256) ∧ (∀ b ∈ r.data, b < 256)

/-- Byte layout of the packed `slave_data_t`: the two blocks laid out back to back. -/
def slave_data_t.serialize (r : slave_data_t) : Bytes :=
  r.button_data ++ r.data

/-- The packed `master_cmd_t` wire record. The `float value` field is carried by
its 4-byte IEEE-754 representation, since the protocol treats it purely as bytes. -/
structure master_cmd_t where
  mainId : Nat
  subId : Nat
  index1 : Nat
  index2 : Nat
  value : Bytes
  valueInt : Int
  deriving DecidableEq, Repr

/-- Little-endian 4-byte two's-complement encoding of an `int32_t`. -/
def int32Bytes (v : Int) : Bytes :=
  let u := (v % (2 ^ 32)).toNat
  [u % 256, u / (2 ^ 8) % 256, u / (2 ^ 16) % 256, u / (2 ^ 24) % 256]

/-- Well-formedness of a `master_cmd_t` value: byte-sized id fields, 4-byte float image. -/
def master_cmd_t.WF (c : master_cmd_t) : Prop :=
  c.mainId < 256 ∧ c.subId < 256 ∧ c.index1 < 256 ∧ c.index2 < 256 ∧
  c.value.length = 4 ∧ (∀ b ∈ c.value, b < 256)

/-- Byte layout of the packed `master_cmd_t`: fields in declaration order, no padding. -/
def master_cmd_t.serialize (c : master_cmd_t) : Bytes :=
  [c.mainId, c.subId, c.index1, c.index2] ++ c.value ++ int32Bytes c.valueInt

/-- `peers_t`: assigned index plus 6-byte link address. -/
structure peers_t where
  peerID : Nat
  peer_mac : Mac
  deriving DecidableEq, Repr

/-- A message handed to the transport adapter (`esp_now_send`). -/
inductive Msg where
  | broadcast (dest : Mac) (payload : Bytes)
  | unicast (dest : Mac) (payload : Bytes)
  deriving DecidableEq, Repr

/-- Send-completion status reported by the transport adapter. -/
inductive SendStatus where
  | success
  | fail
  deriving DecidableEq, Repr

def BROADCAST_MAC_SLAVE : Mac := [0xFF, 0xFF, 0xFF, 0xFF, 0xFF, 0xFD]

def BROADCAST_MAC_MASTER : Mac := [0xFF, 0xFF, 0xFF, 0xFF, 0xFF, 0xFE]

def BROADCAST_SLAVE_MESSAGE : Bytes := "EMCFFBV2 Slave!".toList.map Char.toNat

def BROADCAST_MASTER_MESSAGE : Bytes := "EMCFFBV2 Master!".toList.map Char.toNat

/-- The mutable state of one `EmcEspNow` node. -/
structure EmcState where
  isMaster : Bool
  masterHasCommand : Bool
  peers : List peers_t
  slaveSendData : Bytes
  lastSlaveSendData : Bytes
  masterRecvData : Bytes
  masterCmdData : Bytes
  lastmasterCmdData : Bytes
  broadcastMillis : Nat
  deriving DecidableEq, Repr

/-- The lower-layer registry mirrors the `peers` vector (see module comment). -/
def esp_now_is_peer_exist (s : EmcState) (m : Mac) : Bool :=
  s.peers.any (fun p => p.peer_mac == m)

/-- `EmcEspNow::addPeer`: no-op when the address is already registered, otherwise
append a new entry whose `peerID` is the current vector size. -/
def addPeer (s : EmcState) (m : Mac) : EmcState :=
  if esp_now_is_peer_exist s m then s
  else { s with peers := s.peers ++ [{ peerID := s.peers.length, peer_mac := m }] }

/-- `EmcEspNow::resetData`: `memset` all five snapshot buffers to zero. -/
def resetData (s : EmcState) : EmcState :=
  { s with
    slaveSendData := zeros slaveDataSize
    lastSlaveSendData := zeros slaveDataSize
    masterRecvData := zeros slaveDataSize
    masterCmdData := zeros masterCmdSize
    lastmasterCmdData := zeros masterCmdSize }

/-- The `peers.erase(it)` step of `removePeer`: drop the first entry whose
address matches, leave the rest untouched. -/
def eraseFirstMac : List peers_t → Mac → List peers_t
  | [], _ => []
  | p :: rest, m => if p.peer_mac == m then rest else p :: eraseFirstMac rest m

/-- `EmcEspNow::removePeer`: reset all cached snapshots, then erase the first
directory entry with the given address (if any). -/
def removePeer (s : EmcState) (m : Mac) : EmcState :=
  let s1 := resetData s
  { s1 with peers := eraseFirstMac s1.peers m }

/-- `EmcEspNow::sendBroadcast`: role-dependent discovery ping. -/
def sendBroadcast (s : EmcState) : Msg :=
  if s.isMaster then Msg.broadcast BROADCAST_MAC_MASTER BROADCAST_MASTER_MESSAGE
  else Msg.broadcast BROADCAST_MAC_SLAVE BROADCAST_SLAVE_MESSAGE

/-- `EmcEspNow::update`, one control cycle at clock value `now`.
Returns the new state and the emitted messages, or `none` when the slave send
path dereferences `peers[1]` out of bounds (undefined behaviour in the source). -/
def update (s : EmcState) (now : Nat) : Option (EmcState × List Msg) :=
  if s.isMaster = false ∧ s.peers.length = 1 then
    if 100 < now - s.broadcastMillis then
      some ({ s with broadcastMillis := now }, [sendBroadcast s])
    else
      some (s, [])
  else if s.isMaster then
    some (s, (s.peers.drop 1).map (fun p => Msg.unicast p.peer_mac s.masterCmdData))
  else if s.masterHasCommand then
    some (s, [])
  else if s.slaveSendData ≠ s.lastSlaveSendData then
    match s.peers[1]? with
    | some p =>
        some ({ s with lastSlaveSendData := s.slaveSendData },
              [Msg.unicast p.peer_mac s.slaveSendData])
    | none => none
  else
    some (s, [])

/-- Receive metadata delivered by the transport adapter. -/
structure RecvInfo where
  src_addr : Mac
  des_addr : Mac
  deriving DecidableEq, Repr

/-- The discovery block of `onReceive`: the destination-address check that may
re-broadcast (master only) and add the unknown sender as a peer. -/
def onReceiveDiscovery (s : EmcState) (info : RecvInfo) : EmcState × List Msg :=
  if s.isMaster then
    if info.des_addr == BROADCAST_MAC_SLAVE then
      (if esp_now_is_peer_exist s info.src_addr then s else addPeer s info.src_addr,
       [sendBroadcast s])
    else (s, [])
  else
    if info.des_addr == BROADCAST_MAC_MASTER then
      (if esp_now_is_peer_exist s info.src_addr then s else addPeer s info.src_addr, [])
    else (s, [])

/-- The length-gated data block of `onReceive`: on a payload of the
role-appropriate snapshot size, copy it into the cache when it differs; the
slave additionally toggles the `masterHasCommand` guard around the copy. -/
def onReceiveData (s : EmcState) (data : Bytes) : EmcState :=
  if s.isMaster then
    if data.length = slaveDataSize then
      if s.masterRecvData ≠ data then { s with masterRecvData := data } else s
    else s
  else
    if data.length = masterCmdSize then
      let sIn := { s with masterHasCommand := true }
      let sUpd := if sIn.masterCmdData ≠ data then { sIn with masterCmdData := data } else sIn
      { sUpd with masterHasCommand := false }
    else s

/-- `EmcEspNow::onReceive`: its body is exactly the discovery block followed by
the length-gated data block, in both role branches. -/
def onReceive (s : EmcState) (info : RecvInfo) (data : Bytes) : EmcState × List Msg :=
  (onReceiveData (onReceiveDiscovery s info).1 data, (onReceiveDiscovery s info).2)

/-- `EmcEspNow::onSend`: on a reported send failure, evict the peer. -/
def onSend (s : EmcState) (mac : Mac) (status : SendStatus) : EmcState :=
  if status = SendStatus.fail then removePeer s mac else s

/-- The default-constructed object: empty directory, zeroed buffers. -/
def emptyState (isM : Bool) : EmcState :=
  { isMaster := isM
    masterHasCommand := false
    peers := []
    slaveSendData := zeros slaveDataSize
    lastSlaveSendData := zeros slaveDataSize
    masterRecvData := zeros slaveDataSize
    masterCmdData := zeros masterCmdSize
    lastmasterCmdData := zeros masterCmdSize
    broadcastMillis := 0 }

/-- `EmcEspNow::begin(isMaster)`: register the role's broadcast identity as
peer 0, then reset all buffers. -/
def beginState (isM : Bool) : EmcState :=
  resetData (addPeer (emptyState isM) (if isM then BROADCAST_MAC_MASTER else BROADCAST_MAC_SLAVE))

/-- States reachable from `begin` using only `addPeer` (no removals). -/
inductive AddOnly : EmcState → Prop
  | init (isM : Bool) : AddOnly (beginState isM)
  | add (s : EmcState) (m : Mac) : AddOnly s → AddOnly (addPeer s m)

/-! ## Helper lemmas -/

theorem exist_after_addPeer (s : EmcState) (m : Mac) :
    esp_now_is_peer_exist (addPeer s m) m = true := by
  unfold addPeer
  by_cases h : esp_now_is_peer_exist s m = true
  · simp [h]
  · simp only [h, Bool.false_eq_true, if_neg, ite_false]
    simp [esp_now_is_peer_exist, List.any_append]

theorem eraseFirstMac_length (l : List peers_t) (m : Mac)
    (h : l.any (fun p => p.peer_mac == m) = true) :
    (eraseFirstMac l m).length + 1 = l.length := by
  induction l with
  | nil => simp at h
  | cons p rest ih =>
      by_cases hp : (p.peer_mac == m) = true
      · simp [eraseFirstMac, hp]
      · simp only [List.any_cons, hp, Bool.false_or] at h
        simp [eraseFirstMac, hp, ih h]

theorem eraseFirstMac_subset (l : List peers_t) (m : Mac) (p : peers_t)
    (h : p ∈ eraseFirstMac l m) : p ∈ l := by
  induction l with
  | nil => simp [eraseFirstMac] at h
  | cons q rest ih =>
      by_cases hq : (q.peer_mac == m) = true
      · rw [eraseFirstMac, if_pos hq] at h
        exact List.mem_cons_of_mem q h
      · rw [eraseFirstMac, if_neg hq] at h
        rcases List.mem_cons.mp h with h1 | h1
        · exact h1 ▸ List.mem_cons_self q rest
        · exact List.mem_cons_of_mem q (ih h1)

theorem eraseFirstMac_of_not_exist (l : List peers_t) (m : Mac)
    (h : l.any (fun p => p.peer_mac == m) = false) :
    eraseFirstMac l m = l := by
  induction l with
  | nil => rfl
  | cons q rest ih =>
      simp only [List.any_cons, Bool.or_eq_false_iff] at h
      simp [eraseFirstMac, h.1, ih h.2]

/-! ## Claims -/

theorem addPeer_fields (s : EmcState) (m : Mac) :
    (addPeer s m).masterRecvData = s.masterRecvData ∧
    (addPeer s m).masterCmdData = s.masterCmdData ∧
    (addPeer s m).isMaster = s.isMaster ∧
    (addPeer s m).slaveSendData = s.slaveSendData ∧
    (addPeer s m).lastSlaveSendData = s.lastSlaveSendData := by
  unfold addPeer
  split <;> exact ⟨rfl, rfl, rfl, rfl, rfl⟩

/-- C6: adding an address already present leaves the directory unchanged, and
`addPeer` is idempotent: a second add of the same address changes nothing. -/
theorem C6_addPeer_idempotent (s : EmcState) (m : Mac) :
    (esp_now_is_peer_exist s m = true → addPeer s m = s) ∧
    addPeer (addPeer s m) m = addPeer s m := by
  have hno : ∀ t : EmcState, esp_now_is_peer_exist t m = true → addPeer t m = t := by
    intro t ht
    simp [addPeer, ht]
  exact ⟨hno s, hno (addPeer s m) (exist_after_addPeer s m)⟩

/-- C6 witness: concrete instances of both conjuncts of `C6_addPeer_idempotent`. -/
theorem C6_addPeer_idempotent_witness :
    addPeer (beginState false) BROADCAST_MAC_SLAVE = beginState false ∧
    addPeer (addPeer (beginState false) [1, 2, 3, 4, 5, 6]) [1, 2, 3, 4, 5, 6] =
      addPeer (beginState false) [1, 2, 3, 4, 5, 6] :=
  ⟨(C6_addPeer_idempotent (beginState false) BROADCAST_MAC_SLAVE).1 (by decide),
   (C6_addPeer_idempotent (beginState false) [1, 2, 3, 4, 5, 6]).2⟩

/-- C10: `removePeer` zeroes every cached snapshot buffer unconditionally —
even when the address matches no directory entry — and in that no-match case
the directory itself is unchanged. -/
theorem C10_removePeer_resets_unconditionally (s : EmcState) (m : Mac) :
    (removePeer s m).slaveSendData = zeros 80 ∧
    (removePeer s m).lastSlaveSendData = zeros 80 ∧
    (removePeer s m).masterRecvData = zeros 80 ∧
    (removePeer s m).masterCmdData = zeros 12 ∧
    (removePeer s m).lastmasterCmdData = zeros 12 ∧
    (esp_now_is_peer_exist s m = false → (removePeer s m).peers = s.peers) := by
  refine ⟨rfl, rfl, rfl, rfl, rfl, ?_⟩
  intro h
  simp only [removePeer, resetData]
  exact eraseFirstMac_of_not_exist s.peers m h

/-- C10 witness: removing an address absent from a concrete directory zeroes the
caches and leaves the directory as it was. -/
theorem C10_removePeer_resets_unconditionally_witness :
    (removePeer (beginState false) [9, 9, 9, 9, 9, 9]).masterCmdData = zeros 12 ∧
    (removePeer (beginState false) [9, 9, 9, 9, 9, 9]).peers = (beginState false).peers :=
  ⟨(C10_removePeer_resets_unconditionally (beginState false) [9, 9, 9, 9, 9, 9]).2.2.2.1,
   (C10_removePeer_resets_unconditionally (beginState false) [9, 9, 9, 9, 9, 9]).2.2.2.2.2
     (by decide)⟩

/-- C3: a send-completion notification reporting failure for an address present
in the directory removes one matching entry — the size drops by exactly one and
every surviving entry was already present — and clears the cached snapshots
(outgoing, Last-Sent, master Last-Received, command) to the all-zero state. -/
theorem C3_send_failure_evicts (s : EmcState) (mac : Mac)
    (hmem : esp_now_is_peer_exist s mac = true) :
    (onSend s mac SendStatus.fail).peers.length + 1 = s.peers.length ∧
    (∀ p ∈ (onSend s mac SendStatus.fail).peers, p ∈ s.peers) ∧
    (onSend s mac SendStatus.fail).slaveSendData = zeros 80 ∧
    (onSend s mac SendStatus.fail).lastSlaveSendData = zeros 80 ∧
    (onSend s mac SendStatus.fail).masterRecvData = zeros 80 ∧
    (onSend s mac SendStatus.fail).masterCmdData = zeros 12 := by
  refine ⟨?_, ?_, rfl, rfl, rfl, rfl⟩
  · exact eraseFirstMac_length s.peers mac hmem
  · intro p hp
    exact eraseFirstMac_subset s.peers mac p hp

/-- C3 witness: evicting the one real peer of a concrete two-entry directory. -/
theorem C3_send_failure_evicts_witness :
    (onSend (addPeer (beginState false) [1, 2, 3, 4, 5, 6]) [1, 2, 3, 4, 5, 6]
        SendStatus.fail).peers.length + 1 =
      (addPeer (beginState false) [1, 2, 3, 4, 5, 6]).peers.length ∧
    (onSend (addPeer (beginState false) [1, 2, 3, 4, 5, 6]) [1, 2, 3, 4, 5, 6]
        SendStatus.fail).masterCmdData = zeros 12 :=
  ⟨(C3_send_failure_evicts (addPeer (beginState false) [1, 2, 3, 4, 5, 6]) [1, 2, 3, 4, 5, 6]
      (by decide)).1,
   (C3_send_failure_evicts (addPeer (beginState false) [1, 2, 3, 4, 5, 6]) [1, 2, 3, 4, 5, 6]
      (by decide)).2.2.2.2.2⟩

/-- C1: a PAIRED slave (directory size ≥ 2) outside its receive-handling
critical section emits no unicast when the outgoing snapshot byte-equals the
Last-Sent snapshot; when they differ it emits exactly one unicast carrying the
full 80-byte outgoing snapshot to the peer at index 1 and sets Last-Sent equal
to the outgoing snapshot. -/
theorem C1_slave_paired_diffed_unicast (s : EmcState) (now : Nat)
    (hrole : s.isMaster = false) (hsize : 2 ≤ s.peers.length)
    (hguard : s.masterHasCommand = false) (hlen : s.slaveSendData.length = 80) :
    (s.slaveSendData = s.lastSlaveSendData → update s now = some (s, [])) ∧
    (s.slaveSendData ≠ s.lastSlaveSendData →
      ∃ h1 : 1 < s.peers.length,
        update s now =
          some ({ s with lastSlaveSendData := s.slaveSendData },
                [Msg.unicast (s.peers.get ⟨1, h1⟩).peer_mac s.slaveSendData]) ∧
        s.slaveSendData.length = 80 ∧
        ({ s with lastSlaveSendData := s.slaveSendData }).lastSlaveSendData =
          s.slaveSendData) := by
  have hcond1 : ¬ (s.isMaster = false ∧ s.peers.length = 1) := by
    rintro ⟨-, h⟩
    omega
  have h1lt : 1 < s.peers.length := by omega
  constructor
  · intro heq
    unfold update
    rw [if_neg hcond1, if_neg (by simp [hrole]), if_neg (by simp [hguard]),
        if_neg (by simp [heq])]
  · intro hne
    refine ⟨h1lt, ?_, hlen, rfl⟩
    unfold update
    rw [if_neg hcond1, if_neg (by simp [hrole]), if_neg (by simp [hguard]), if_pos hne,
        List.getElem?_eq_getElem h1lt]
    rfl

/-- C1 witness: concrete PAIRED slave states exercising both the suppressed and
the emitting branch of `C1_slave_paired_diffed_unicast`. -/
theorem C1_slave_paired_diffed_unicast_witness :
    update (addPeer (beginState false) [1, 2, 3, 4, 5, 6]) 0 =
      some (addPeer (beginState false) [1, 2, 3, 4, 5, 6], []) :=
  (C1_slave_paired_diffed_unicast (addPeer (beginState false) [1, 2, 3, 4, 5, 6]) 0
      (by decide) (by decide) (by decide) (by decide)).1 (by decide)

/-- C2: a master's cycle emits exactly one unicast of the 12-byte command
snapshot to each peer at every index ≥ 1, with no equality-based suppression
(the command and last-command caches impose no hypothesis here). The directory
bound reflects the `uint8_t` loop counter of the source, which the ESP-NOW
20-peer registry cap keeps far from overflow. -/
theorem C2_master_unconditional_round (s : EmcState) (now : Nat)
    (hrole : s.isMaster = true) (_hcap : s.peers.length ≤ 255) :
    ∃ msgs, update s now = some (s, msgs) ∧
      msgs.length = s.peers.length - 1 ∧
      ∀ i (hi : i + 1 < s.peers.length),
        msgs[i]? = some (Msg.unicast (s.peers.get ⟨i + 1, hi⟩).peer_mac s.masterCmdData) := by
  refine ⟨(s.peers.drop 1).map (fun p => Msg.unicast p.peer_mac s.masterCmdData), ?_, ?_, ?_⟩
  · unfold update
    rw [if_neg (by simp [hrole]), if_pos hrole]
  · simp
  · intro i hi
    rw [List.getElem?_map, List.getElem?_drop, Nat.add_comm 1 i,
        List.getElem?_eq_getElem hi]
    rfl

/-- C2 witness: a concrete two-peer master directory produces exactly one
command unicast, addressed to the peer at index 1. -/
theorem C2_master_unconditional_round_witness :
    ∃ msgs, update (addPeer (beginState true) [1, 2, 3, 4, 5, 6]) 0 =
        some (addPeer (beginState true) [1, 2, 3, 4, 5, 6], msgs) ∧
      msgs.length = 1 :=
  match C2_master_unconditional_round (addPeer (beginState true) [1, 2, 3, 4, 5, 6]) 0
      (by decide) (by decide) with
  | ⟨msgs, hupd, hlen, _⟩ => ⟨msgs, hupd, by rw [hlen]; decide⟩

/-- C7: the receive handler is length-gated. A payload of the role-appropriate
snapshot size (80 bytes at a master, 12 bytes at a slave) makes the
corresponding Last-Received cache byte-equal to the payload; any other length
leaves that cache unchanged, and the handler is total (no error is signalled). -/
theorem C7_receive_length_gate (s : EmcState) (info : RecvInfo) (data : Bytes) :
    (s.isMaster = true → data.length = 80 →
      (onReceive s info data).1.masterRecvData = data) ∧
    (s.isMaster = true → data.length ≠ 80 →
      (onReceive s info data).1.masterRecvData = s.masterRecvData) ∧
    (s.isMaster = false → data.length = 12 →
      (onReceive s info data).1.masterCmdData = data) ∧
    (s.isMaster = false → data.length ≠ 12 →
      (onReceive s info data).1.masterCmdData = s.masterCmdData) := by
  have hdisc :
      (onReceiveDiscovery s info).1.isMaster = s.isMaster ∧
      (onReceiveDiscovery s info).1.masterRecvData = s.masterRecvData ∧
      (onReceiveDiscovery s info).1.masterCmdData = s.masterCmdData := by
    unfold onReceiveDiscovery
    split <;> split <;> (try split) <;>
      simp [addPeer_fields, (addPeer_fields s info.src_addr).2.2.1]
  obtain ⟨hdm, hdr, hdc⟩ := hdisc
  refine ⟨?_, ?_, ?_, ?_⟩
  · intro hm hlen
    have hlen' : data.length = slaveDataSize := by simp [slaveDataSize, hlen]
    simp only [onReceive, onReceiveData, hdm, hm, if_true, hlen', ite_true]
    split <;> simp_all
  · intro hm hlen
    have hlen' : ¬ data.length = slaveDataSize := by simpa [slaveDataSize] using hlen
    simp only [onReceive, onReceiveData, hdm, hm, if_true, hlen', ite_false]
    exact hdr
  · intro hm hlen
    have hlen' : data.length = masterCmdSize := by simp [masterCmdSize, hlen]
    simp only [onReceive, onReceiveData, hdm, hm, Bool.false_eq_true, if_false, hlen',
      ite_true]
    split <;> simp_all
  · intro hm hlen
    have hlen' : ¬ data.length = masterCmdSize := by simpa [masterCmdSize] using hlen
    simp only [onReceive, onReceiveData, hdm, hm, Bool.false_eq_true, if_false, hlen',
      ite_false]
    exact hdc

/-- C7 witness: a 12-byte command received by a concrete slave replaces the
command cache; an 11-byte datagram leaves it untouched. -/
theorem C7_receive_length_gate_witness :
    (onReceive (beginState false) { src_addr := [1, 2, 3, 4, 5, 6], des_addr := [0, 0, 0, 0, 0, 0] }
        [1, 2, 3, 4, 5, 6, 7, 8, 9, 10, 11, 12]).1.masterCmdData =
      [1, 2, 3, 4, 5, 6, 7, 8, 9, 10, 11, 12] ∧
    (onReceive (beginState false) { src_addr := [1, 2, 3, 4, 5, 6], des_addr := [0, 0, 0, 0, 0, 0] }
        [1, 2, 3, 4, 5, 6, 7, 8, 9, 10, 11]).1.masterCmdData =
      (beginState false).masterCmdData :=
  ⟨(C7_receive_length_gate (beginState false)
      { src_addr := [1, 2, 3, 4, 5, 6], des_addr := [0, 0, 0, 0, 0, 0] }
      [1, 2, 3, 4, 5, 6, 7, 8, 9, 10, 11, 12]).2.2.1 (by decide) (by decide),
   (C7_receive_length_gate (beginState false)
      { src_addr := [1, 2, 3, 4, 5, 6], des_addr := [0, 0, 0, 0, 0, 0] }
      [1, 2, 3, 4, 5, 6, 7, 8, 9, 10, 11]).2.2.2 (by decide) (by decide)⟩

theorem beginState_peers (isM : Bool) :
    (beginState isM).peers =
      [{ peerID := 0,
         peer_mac := if isM then BROADCAST_MAC_MASTER else BROADCAST_MAC_SLAVE }] := by
  cases isM <;> rfl

/-- C9: a SEARCHING slave (directory size 1) never unicasts; it broadcasts
exactly when more than 100 ms have elapsed since the previous broadcast, in
which case the cadence timer is reset to the current time. (`hmono` records
that the clock is monotone, so the unsigned elapsed-time subtraction of the
source coincides with the `Nat` subtraction used here.) -/
theorem C9_searching_cadence (s : EmcState) (now : Nat)
    (hrole : s.isMaster = false) (hsz : s.peers.length = 1)
    (_hmono : s.broadcastMillis ≤ now) :
    (¬ 100 < now - s.broadcastMillis → update s now = some (s, [])) ∧
    (100 < now - s.broadcastMillis →
      update s now =
        some ({ s with broadcastMillis := now },
              [Msg.broadcast BROADCAST_MAC_SLAVE BROADCAST_SLAVE_MESSAGE])) ∧
    ∀ r, update s now = some r → ∀ dest payload, Msg.unicast dest payload ∉ r.2 := by
  refine ⟨?_, ?_, ?_⟩
  · intro hlt
    unfold update
    rw [if_pos ⟨hrole, hsz⟩, if_neg hlt]
  · intro hlt
    unfold update
    rw [if_pos ⟨hrole, hsz⟩, if_pos hlt]
    simp [sendBroadcast, hrole]
  · intro r hr dest payload hmem
    unfold update at hr
    rw [if_pos ⟨hrole, hsz⟩] at hr
    by_cases hlt : 100 < now - s.broadcastMillis
    · rw [if_pos hlt] at hr
      cases hr
      simp [sendBroadcast, hrole] at hmem
    · rw [if_neg hlt] at hr
      cases hr
      simp at hmem

/-- C9 witness: a fresh slave at clock 200 broadcasts and resets the timer. -/
theorem C9_searching_cadence_witness :
    update (beginState false) 200 =
      some ({ beginState false with broadcastMillis := 200 },
            [Msg.broadcast BROADCAST_MAC_SLAVE BROADCAST_SLAVE_MESSAGE]) :=
  (C9_searching_cadence (beginState false) 200
      (by decide) (by decide) (by decide)).2.1 (by decide)

/-- The C5 scenario: a slave whose directory is empty (size 0) and whose
outgoing snapshot differs from the Last-Sent copy. -/
def emptyDirSlave : EmcState := { emptyState false with slaveSendData := 1 :: zeros 79 }

/-- C5 counterexample: the claim quantifies over every directory size including
0, but at size 0 (< 2) the slave send path still dereferences `peers[1]`, which
is out of bounds — `update` reaches the undefined-behaviour marker `none`. The
only guard in the source is the `peers.size() == 1` early return. -/
theorem C5_counterexample :
    emptyDirSlave.isMaster = false ∧ emptyDirSlave.peers.length = 0 ∧
    update emptyDirSlave 0 = none := by
  exact ⟨rfl, rfl, by decide⟩

/-- C5 amended: for a slave whose directory is non-empty (size ≥ 1, which
`begin` establishes by registering the broadcast identity), one cycle never
goes out of bounds, and any unicast it emits targets the peer at index 1,
which forces directory size ≥ 2. -/
theorem C5_amended_index1_guard (s : EmcState) (now : Nat)
    (hrole : s.isMaster = false) (hsz : 1 ≤ s.peers.length) :
    ∃ r, update s now = some r ∧
      ∀ dest payload, Msg.unicast dest payload ∈ r.2 →
        ∃ h1 : 1 < s.peers.length, dest = (s.peers.get ⟨1, h1⟩).peer_mac := by
  by_cases h1 : s.peers.length = 1
  · by_cases hlt : 100 < now - s.broadcastMillis
    · refine ⟨({ s with broadcastMillis := now }, [sendBroadcast s]), ?_, ?_⟩
      · unfold update
        rw [if_pos ⟨hrole, h1⟩, if_pos hlt]
      · intro dest payload hmem
        simp only [List.mem_singleton] at hmem
        simp [sendBroadcast, hrole] at hmem
    · refine ⟨(s, []), ?_, ?_⟩
      · unfold update
        rw [if_pos ⟨hrole, h1⟩, if_neg hlt]
      · intro dest payload hmem
        simp at hmem
  · have h2 : 1 < s.peers.length := by omega
    have hc1 : ¬ (s.isMaster = false ∧ s.peers.length = 1) := by
      rintro ⟨-, hx⟩
      exact h1 hx
    by_cases hcmd : s.masterHasCommand = true
    · refine ⟨(s, []), ?_, ?_⟩
      · unfold update
        rw [if_neg hc1, if_neg (by simp [hrole]), if_pos hcmd]
      · intro dest payload hmem
        simp at hmem
    · by_cases hne : s.slaveSendData ≠ s.lastSlaveSendData
      · refine ⟨({ s with lastSlaveSendData := s.slaveSendData },
                 [Msg.unicast (s.peers.get ⟨1, h2⟩).peer_mac s.slaveSendData]), ?_, ?_⟩
        · unfold update
          rw [if_neg hc1, if_neg (by simp [hrole]), if_neg hcmd, if_pos hne,
              List.getElem?_eq_getElem h2]
          rfl
        · intro dest payload hmem
          simp only [List.mem_singleton] at hmem
          injection hmem with hd hp
          exact ⟨h2, hd⟩
      · refine ⟨(s, []), ?_, ?_⟩
        · unfold update
          rw [if_neg hc1, if_neg (by simp [hrole]), if_neg hcmd, if_neg hne]
        · intro dest payload hmem
          simp at hmem

/-- C5 amended witness: a fresh slave directory (size 1) runs a cycle safely. -/
theorem C5_amended_index1_guard_witness :
    ∃ r, update (beginState false) 0 = some r ∧
      ∀ dest payload, Msg.unicast dest payload ∈ r.2 →
        ∃ h1 : 1 < (beginState false).peers.length,
          dest = ((beginState false).peers.get ⟨1, h1⟩).peer_mac :=
  C5_amended_index1_guard (beginState false) 0 (by decide) (by decide)

def macA : Mac := [1, 1, 1, 1, 1, 1]

def macB : Mac := [2, 2, 2, 2, 2, 2]

def macC : Mac := [3, 3, 3, 3, 3, 3]

/-- The C4 scenario: a slave adds peers A and B, peer A is evicted, then a new
peer C is added. -/
def reuseScenario : EmcState :=
  addPeer (removePeer (addPeer (addPeer (beginState false) macA) macB) macA) macC

/-- C4 counterexample: after add A (index 1), add B (index 2), remove A,
add C, the directory holds two distinct addresses (B at vector position 1 and
C at position 2) that both carry `peerID = 2` — peer indices are neither
pairwise distinct nor free of reuse, because `addPeer` assigns
`peerID = peers.size()`, which shrinks when a peer is removed. -/
theorem C4_counterexample :
    reuseScenario.peers.map peers_t.peerID = [0, 2, 2] ∧
    reuseScenario.peers.map peers_t.peer_mac = [BROADCAST_MAC_SLAVE, macB, macC] := by
  exact ⟨by decide, by decide⟩

/-- C4 amended: as long as no peer has been removed, indices are sequential and
pairwise distinct — in every state reachable from `begin` by `addPeer` alone,
the peer at vector position `i` carries `peerID = i`, so all simultaneously
present `peerID`s are pairwise distinct. A removal breaks this: the next
assigned index can duplicate a live one (see the counterexample). -/
theorem C4_amended_ids_sequential_without_removal (s : EmcState) (h : AddOnly s) :
    (∀ i (hi : i < s.peers.length), (s.peers.get ⟨i, hi⟩).peerID = i) ∧
    s.peers.Pairwise (fun p q => p.peerID ≠ q.peerID) := by
  have hids : ∀ i, i < s.peers.length → s.peers[i]?.map peers_t.peerID = some i := by
    induction h with
    | init isM =>
        intro i hi
        rw [beginState_peers] at hi ⊢
        simp only [List.length_singleton] at hi
        have h0 : i = 0 := by omega
        subst h0
        simp
    | add t m ht ih =>
        intro i hi
        by_cases hex : esp_now_is_peer_exist t m = true
        · simp only [addPeer, hex, if_true] at hi ⊢
          exact ih i hi
        · simp only [addPeer, hex, Bool.false_eq_true, if_false] at hi ⊢
          simp only [List.length_append, List.length_singleton] at hi
          by_cases hlt : i < t.peers.length
          · rw [List.getElem?_append_left hlt]
            exact ih i hlt
          · have hieq : i = t.peers.length := by omega
            subst hieq
            rw [List.getElem?_append_right (Nat.le_refl _)]
            simp
  have hget : ∀ i (hi : i < s.peers.length), (s.peers.get ⟨i, hi⟩).peerID = i := by
    intro i hi
    have h2 := hids i hi
    rw [List.getElem?_eq_getElem hi] at h2
    simpa [List.get_eq_getElem] using h2
  refine ⟨hget, List.pairwise_iff_getElem.mpr ?_⟩
  intro i j hi hj hij
  have ha := hget i hi
  have hb := hget j hj
  simp only [List.get_eq_getElem] at ha hb
  omega

/-- C4 amended witness: the invariant instantiated at an add-only reachable
two-peer directory. -/
theorem C4_amended_ids_sequential_without_removal_witness :
    (addPeer (beginState false) macA).peers.Pairwise
      (fun p q => p.peerID ≠ q.peerID) :=
  (C4_amended_ids_sequential_without_removal (addPeer (beginState false) macA)
      (AddOnly.add (beginState false) macA (AddOnly.init false))).2

theorem int32Bytes_length (v : Int) : (int32Bytes v).length = 4 := rfl

theorem int32Bytes_lt (v : Int) : ∀ b ∈ int32Bytes v, b < 256 := by
  intro b hb
  simp only [int32Bytes, List.mem_cons, List.not_mem_nil, or_false] at hb
  rcases hb with h | h | h | h <;> subst h <;> exact Nat.mod_lt _ (by omega)

/-- C8: the wire records are packed, with the stated sizes and field order.
The slave snapshot serializes to the 16-byte input-bitfield block immediately
followed by the 64-byte general-purpose block, 80 bytes in total; the command
snapshot serializes to main-id, sub-id, index1, index2 at byte offsets 0–3,
the 4-byte floating value at offsets 4–7 and the 4-byte signed integer at
offsets 8–11, 12 bytes in total, with every byte in range — no gaps. -/
theorem C8_packed_wire_layout (r : slave_data_t) (c : master_cmd_t)
    (hr : r.WF) (hc : c.WF) :
    r.serialize.length = 80 ∧
    r.serialize.take 16 = r.button_data ∧
    r.serialize.drop 16 = r.data ∧
    c.serialize.length = 12 ∧
    c.serialize.take 4 = [c.mainId, c.subId, c.index1, c.index2] ∧
    (c.serialize.drop 4).take 4 = c.value ∧
    c.serialize.drop 8 = int32Bytes c.valueInt ∧
    (∀ b ∈ r.serialize, b < 256) ∧ (∀ b ∈ c.serialize, b < 256) := by
  obtain ⟨hb, hd, hbb, hdb⟩ := hr
  obtain ⟨h0, h1, h2, h3, hv, hvb⟩ := hc
  have hids : ([c.mainId, c.subId, c.index1, c.index2] ++ c.value).length = 8 := by
    simp [hv]
  refine ⟨?_, ?_, ?_, ?_, ?_, ?_, ?_, ?_, ?_⟩
  · simp [slave_data_t.serialize, hb, hd]
  · rw [slave_data_t.serialize, ← hb, List.take_left]
  · rw [slave_data_t.serialize, ← hb, List.drop_left]
  · simp [master_cmd_t.serialize, hv, int32Bytes_length]
  · rfl
  · show ((([c.mainId, c.subId, c.index1, c.index2] ++ c.value) ++
        int32Bytes c.valueInt).drop 4).take 4 = c.value
    have h4 : (([c.mainId, c.subId, c.index1, c.index2] ++ c.value) ++
        int32Bytes c.valueInt).drop 4 = c.value ++ int32Bytes c.valueInt := by
      rfl
    rw [h4, ← hv, List.take_left]
  · show (([c.mainId, c.subId, c.index1, c.index2] ++ c.value) ++
        int32Bytes c.valueInt).drop 8 = int32Bytes c.valueInt
    rw [← hids, List.drop_left]
  · intro b hbmem
    rw [slave_data_t.serialize, List.mem_append] at hbmem
    rcases hbmem with h | h
    · exact hbb b h
    · exact hdb b h
  · intro b hbmem
    rw [master_cmd_t.serialize, List.mem_append, List.mem_append] at hbmem
    rcases hbmem with (h | h) | h
    · simp only [List.mem_cons, List.not_mem_nil, or_false] at h
      rcases h with h | h | h | h <;> subst h <;> assumption
    · exact hvb b h
    · exact int32Bytes_lt c.valueInt b h

/-- The command scenario of the spec: `mainId=5, subId=1, index1=0, index2=2`,
floating value 3.5 (IEEE-754 bytes `00 00 60 40`), integer value −1. -/
def cmdScenario : master_cmd_t :=
  { mainId := 5, subId := 1, index1 := 0, index2 := 2, value := [0, 0, 96, 64], valueInt := -1 }

def slaveScenario : slave_data_t := { button_data := zeros 16, data := zeros 64 }

/-- C8 witness: the layout theorem evaluated at the concrete scenario records. -/
theorem C8_packed_wire_layout_witness :
    slaveScenario.serialize.length = 80 ∧
    cmdScenario.serialize.length = 12 ∧
    cmdScenario.serialize.take 4 = [5, 1, 0, 2] :=
  ⟨(C8_packed_wire_layout slaveScenario cmdScenario
      (by unfold slave_data_t.WF; decide) (by unfold master_cmd_t.WF; decide)).1,
   (C8_packed_wire_layout slaveScenario cmdScenario
      (by unfold slave_data_t.WF; decide) (by unfold master_cmd_t.WF; decide)).2.2.2.1,
   by
     rw [(C8_packed_wire_layout slaveScenario cmdScenario
       (by unfold slave_data_t.WF; decide) (by unfold master_cmd_t.WF; decide)).2.2.2.2.1]
     rfl⟩
